import Mathlib

/-!
Verification development for the bounded tool-calling agent loop of the
Freire repository.  The subsystem is duplicated across three TypeScript
functions:

* `chatWithWebSearchStreaming` (src/unnamed/part_000) - GMI streaming loop,
* `testGMIStreaming` (src/unnamed/part_001) - GMI streaming test loop,
* `chatWithCerebrasWebSearch` (src/src/app/admin/layout.tsx) - Cerebras loop.

The embedding below translates the control flow of these functions into
Lean.  External effects are modelled explicitly:

* `JSON.parse` of a tool-call argument string is an external runtime
  primitive; it is modelled by a `World.parseArgs : String -> Option SearchArgs`
  oracle (`none` means the parse throws, which is what an invalid string
  does in JavaScript).
* the Serper search HTTP call is modelled by `World.serper`, returning the
  raw response body; the in-repo normalisation (`organic?.slice(0,n).map(...)`)
  is translated faithfully as `normalizeSearch`.
* `JSON.stringify` of a search result is modelled by carrying the
  structured payload on the tool-result turn.
* the chat-completion provider is modelled by a `script : Nat -> Reply`
  giving the finalized assistant message of each round trip; quantifying
  over all scripts quantifies over all provider behaviours.
* the interleaved streaming of one assistant turn is modelled separately
  (`RawLine`, `applyDelta`, `processLines`), exactly following the per-line
  SSE handling of the two streaming variants, whose code is identical.

Machine integers do not occur: every counter in the source is a small
JavaScript number used only for counting, modelled as `Nat`.
-/

/-- One tool invocation's function payload: `{ name, arguments }` in the
source (`arguments` is the raw accumulated argument text). -/
structure ToolCallFn where
  name : String
  arguments : String
  deriving DecidableEq, Repr

/-- One finalized tool invocation: `{ id, type: 'function', function }` in the
source.  The constant `type` discriminator field carries no information and is
omitted. -/
structure ToolCall where
  id : String
  function : ToolCallFn
  deriving DecidableEq, Repr

/-- Search arguments as produced by `JSON.parse` of the argument string:
`{ query, numResults? }`.  `numResults` is optional in the GMI part_001 and
Cerebras variants and absent from part_000's schema. -/
structure SearchArgs where
  query : String
  numResults : Option Nat
  deriving DecidableEq, Repr

/-- One entry of the Serper `organic` array that the source keeps. -/
structure SearchItem where
  title : String
  snippet : String
  link : String
  deriving DecidableEq, Repr

/-- Raw Serper response body, as far as the source reads it:
`data.organic` (possibly absent) and `data.answerBox` (possibly null). -/
structure SerperData where
  organic : Option (List SearchItem)
  answerBox : Option String
  deriving DecidableEq, Repr

/-- Normalised web-search result returned by every `executeWebSearch`
variant: `{ organic: ..., answerBox: ... }`. -/
structure SearchResults where
  organic : List SearchItem
  answerBox : Option String
  deriving DecidableEq, Repr

/-- One message of the conversation transcript.  The source uses plain
role/content objects; tool-result messages carry `tool_call_id` and the
stringified search results (carried structured here, see the header note). -/
inductive Msg where
  | system (content : String)
  | user (content : String)
  | assistant (content : String) (tool_calls : List ToolCall)
  | tool (tool_call_id : String) (payload : SearchResults)
  deriving DecidableEq, Repr

/-- Observation helper: is a message a tool-result turn. -/
def Msg.isToolResult : Msg → Bool
  | .tool _ _ => true
  | _ => false

/-- Observation helper: the `tool_call_id` of a tool-result turn. -/
def Msg.toolCallId : Msg → Option String
  | .tool i _ => some i
  | _ => none

/-- External world of the loop: the JSON argument parser (a JavaScript
runtime primitive; `none` models a thrown `SyntaxError`) and the Serper
search endpoint. -/
structure World where
  parseArgs : String → Option SearchArgs
  serper : String → Nat → SerperData

/-- One finalized assistant reply from the provider, per round trip. -/
structure Reply where
  content : String
  tool_calls : List ToolCall
  deriving DecidableEq, Repr

/-- The ways a loop run can end without a completed answer.
`reachedMaxIterations` is the `throw new Error('Reached max iterations...')`
of every variant (the spec's BudgetExhaustedError); `emptyResponse` is the
`throw new Error('Model finished without providing content')`; `jsonParse`
is an uncaught `JSON.parse` exception escaping the loop. -/
inductive LoopErr where
  | jsonParse
  | emptyResponse
  | reachedMaxIterations
  deriving DecidableEq, Repr

/-- Record of one provider request: the tool-call counter at request time,
whether the tool schema was offered (`tools`/`tool_choice` present in the
request body), and the messages sent. -/
structure Req where
  toolCalls : Nat
  offered : Bool
  sent : List Msg
  deriving DecidableEq, Repr

/-- Outcome of a loop run: the provider-request trace, the final
conversation messages at exit, and the result. -/
structure LoopOut (ρ : Type) where
  trace : List Req
  messages : List Msg
  result : Except LoopErr ρ

deriving instance DecidableEq for Except
deriving instance DecidableEq for LoopOut
deriving instance Repr for LoopOut

/-- Prepend one request record to a run outcome (the shape of every
loop-continuation branch). -/
def prependReq (r : Req) (o : LoopOut ρ) : LoopOut ρ :=
  ⟨r :: o.trace, o.messages, o.result⟩

/-- JavaScript `x || d` on an optional number: `undefined` and `0` are
falsy and fall back to the default. -/
def orDefault (o : Option Nat) (d : Nat) : Nat :=
  match o with
  | some k => if k = 0 then d else k
  | none => d

/-- Normalisation shared by every `executeWebSearch` variant:
`data.organic?.slice(0, numResults).map(pick title/snippet/link) || []`
together with `answerBox: data.answerBox || null`. -/
def normalizeSearch (data : SerperData) (numResults : Nat) : SearchResults :=
  ⟨((data.organic.getD []).take numResults).map (fun r => ⟨r.title, r.snippet, r.link⟩),
   data.answerBox⟩

/-! ## Delta accumulator (part_000 lines 181-210, part_001 lines 180-201)

The two streaming variants contain character-for-character the same
accumulation logic; it is embedded once. -/

/-- The `function` object of one streamed tool-call delta:
optional `name` and `arguments` increments. -/
structure FunctionDelta where
  name : Option String
  arguments : Option String
  deriving DecidableEq, Repr

/-- One streamed tool-call fragment: positional `index`, optional `id`,
optional `function` increments. -/
structure ToolCallDelta where
  index : Nat
  id : Option String
  function : Option FunctionDelta
  deriving DecidableEq, Repr

/-- One decoded SSE delta: optional `content` increment and optional
`tool_calls` array. -/
structure Delta where
  content : Option String
  tool_calls : Option (List ToolCallDelta)
  deriving DecidableEq, Repr

/-- Array read `calls[index]`: JavaScript yields `undefined` (here `none`)
for holes and out-of-range indices. -/
def getAt : List (Option ToolCall) → Nat → Option ToolCall
  | [], _ => none
  | x :: _, 0 => x
  | _ :: xs, n + 1 => getAt xs n

/-- Array write `calls[index] = v`: JavaScript extends the array with holes
when the index is past the end. -/
def setAt : List (Option ToolCall) → Nat → Option ToolCall → List (Option ToolCall)
  | [], 0, v => [v]
  | [], n + 1, v => none :: setAt [] n v
  | _ :: xs, 0, v => v :: xs
  | x :: xs, n + 1, v => x :: setAt xs n v

/-- The name increment carried by a fragment (`toolCallDelta.function?.name`,
empty when absent). -/
def ToolCallDelta.nameInc (d : ToolCallDelta) : String :=
  match d.function with
  | some f => f.name.getD ""
  | none => ""

/-- The arguments increment carried by a fragment
(`toolCallDelta.function?.arguments`, empty when absent). -/
def ToolCallDelta.argsInc (d : ToolCallDelta) : String :=
  match d.function with
  | some f => f.arguments.getD ""
  | none => ""

/-- One step of tool-call accumulation, translating part_000 lines 182-209:
initialise the entry at `index` if absent, then
`if (toolCallDelta.id) toolCall.id = toolCallDelta.id;`
`if (toolCallDelta.function?.name) toolCall.function.name += ...;`
`if (toolCallDelta.function?.arguments) toolCall.function.arguments += ...;`
(JavaScript truthiness: an empty string does not fire the guards). -/
def applyToolCallDelta (calls : List (Option ToolCall)) (d : ToolCallDelta) :
    List (Option ToolCall) :=
  let tc0 := (getAt calls d.index).getD ⟨"", ⟨"", ""⟩⟩
  let id1 := match d.id with
    | some s => if s = "" then tc0.id else s
    | none => tc0.id
  let name1 := if d.nameInc = "" then tc0.function.name
    else tc0.function.name ++ d.nameInc
  let args1 := if d.argsInc = "" then tc0.function.arguments
    else tc0.function.arguments ++ d.argsInc
  setAt calls d.index (some ⟨id1, ⟨name1, args1⟩⟩)

/-- Accumulate a sequence of tool-call fragments, in arrival order, into
the in-progress invocation array. -/
def accumToolCalls (ds : List ToolCallDelta) : List (Option ToolCall) :=
  ds.foldl applyToolCallDelta []

/-- Accumulation state of one streamed assistant turn:
`assistantMessage.content` and `assistantMessage.tool_calls`. -/
structure AccState where
  content : String
  tool_calls : List (Option ToolCall)
  deriving DecidableEq, Repr

/-- Apply one decoded delta to the accumulation state (part_000 lines
170-211): append truthy `content`, then fold the `tool_calls` array if
present. -/
def applyDelta (st : AccState) (d : Delta) : AccState :=
  let st1 := match d.content with
    | some c => if c = "" then st else { st with content := st.content ++ c }
    | none => st
  match d.tool_calls with
  | some tcs => { st1 with tool_calls := tcs.foldl applyToolCallDelta st1.tool_calls }
  | none => st1

/-! ## Stream frame decoder (part_000 lines 158-216, part_001 lines 144-206)

A logical SSE line is classified exactly as the source's per-line handling
does.  `JSON.parse` of an event payload and the `chunk.choices[0]?.delta`
projection are runtime/library operations outside the repository; a line is
therefore carried already classified:  `malformed` is a `data: ` line whose
payload makes `JSON.parse` throw (caught and skipped by the
`try ... catch { continue }`), `noDelta` is a parsed chunk without a delta
(`if (!delta) continue`). -/
inductive RawLine where
  | blank
  | doneMarker
  | nonData
  | malformed
  | noDelta
  | event (d : Delta)
  deriving DecidableEq, Repr

/-- Per-line processing of the SSE decode loop: only a well-formed event
line changes the accumulation state; every other line is skipped. -/
def processLine (st : AccState) (l : RawLine) : AccState :=
  match l with
  | .event d => applyDelta st d
  | _ => st

/-- Decode-and-accumulate over an ordered sequence of logical lines. -/
def processLines (st : AccState) (ls : List RawLine) : AccState :=
  ls.foldl processLine st

/-- Stream-end cleanup (part_000 lines 224-227):
`tool_calls.filter(tc => tc.id)` - drop array holes and invocations whose
id is still the empty placeholder. -/
def cleanupToolCalls (calls : List (Option ToolCall)) : List ToolCall :=
  (calls.filterMap id).filter (fun tc => tc.id ≠ "")

/-! ## GMI agent loops (part_000 and part_001)

The two GMI variants share their loop structure verbatim; the only
difference inside the loop body is how the tool-result message is built
(part_000 always requests 5 results, part_001 passes
`args.numResults || 5`).  The shared loop is therefore parameterised by the
tool-result builder and instantiated once per file. -/

namespace Gmi

/-- Hard-coded `maxIterations = 5` of both GMI variants. -/
def maxIterations : Nat := 5

/-- Hard-coded `maxToolCalls = 3` of both GMI variants. -/
def maxToolCalls : Nat := 3

/-- Loop-carried state: `messages`, `iteration`, `toolCallCount`. -/
structure LoopState where
  messages : List Msg
  iteration : Nat
  toolCallCount : Nat
  deriving DecidableEq, Repr

/-- Result of part_000's loop: `{ response, searchesPerformed }`
(part_001 returns nothing but logs the same values; the richer record is
used for both). -/
structure GmiResult where
  response : String
  searchesPerformed : Nat
  deriving DecidableEq, Repr

/-- Tool-execution loop of the GMI variants (part_000 lines 240-253,
part_001 lines 235-248): every invocation named `webSearch` is executed -
there is no budget check inside this loop - and `JSON.parse` of its
arguments is unguarded, so a failed parse escapes the whole function. -/
def execToolCalls (build : ToolCall → SearchArgs → Msg) (w : World)
    (msgs : List Msg) : List ToolCall → List Msg × Option LoopErr
  | [] => (msgs, none)
  | tc :: rest =>
    if tc.function.name = "webSearch" then
      match w.parseArgs tc.function.arguments with
      | none => (msgs, some .jsonParse)
      | some a => execToolCalls build w (msgs ++ [build tc a]) rest
    else execToolCalls build w msgs rest

/-- Fueled agent loop shared by the two GMI variants (part_000 lines
95-275, part_001 lines 83-267).  The fuel is the number of remaining
passes of `while (iteration < maxIterations)`; exhausting it is the
`throw new Error('Reached max iterations...')` after the loop.  The tool
schema is put in the request body exactly when
`toolCallCount < maxToolCalls`; the counter is increased by the full
length of the requested `tool_calls` array before execution. -/
def run (build : ToolCall → SearchArgs → Msg) (w : World)
    (script : Nat → Reply) : LoopState → Nat → LoopOut GmiResult
  | st, 0 => ⟨[], st.messages, .error .reachedMaxIterations⟩
  | st, fuel + 1 =>
    let req : Req := ⟨st.toolCallCount, decide (st.toolCallCount < maxToolCalls),
      st.messages⟩
    let reply := script st.iteration
    let msgs2 := st.messages ++ [Msg.assistant reply.content reply.tool_calls]
    if reply.tool_calls ≠ [] then
      let newCount := st.toolCallCount + reply.tool_calls.length
      match execToolCalls build w msgs2 reply.tool_calls with
      | (m, some e) => ⟨[req], m, .error e⟩
      | (m, none) =>
        prependReq req (run build w script ⟨m, st.iteration + 1, newCount⟩ fuel)
    else if reply.content ≠ "" then
      ⟨[req], msgs2, .ok ⟨reply.content, st.toolCallCount⟩⟩
    else ⟨[req], msgs2, .error .emptyResponse⟩

end Gmi

namespace Gmi0

/-- part_000's `executeWebSearch(query)`: the Serper request is made with
`num: 5` and the response normalised with `slice(0, 5)`. -/
def executeWebSearch (w : World) (query : String) : SearchResults :=
  normalizeSearch (w.serper query 5) 5

/-- Tool-result message pushed by part_000 lines 247-251. -/
def buildToolMsg (w : World) (tc : ToolCall) (a : SearchArgs) : Msg :=
  .tool tc.id (executeWebSearch w a.query)

/-- System prompt of part_000 (text abbreviated; only role and position
matter to the verified properties). -/
def systemPrompt : Msg :=
  .system "You are a helpful AI assistant with access to web search capabilities. Limit yourself to 1-2 web searches maximum per question."

/-- part_000's `chatWithWebSearchStreaming(question)`: seed the transcript
with the system prompt and the question, then run the GMI loop with
`maxIterations = 5`, `maxToolCalls = 3`. -/
def chatWithWebSearchStreaming (w : World) (script : Nat → Reply)
    (question : String) : LoopOut Gmi.GmiResult :=
  Gmi.run (buildToolMsg w) w script
    ⟨[systemPrompt, .user question], 0, 0⟩ Gmi.maxIterations

end Gmi0

namespace Gmi1

/-- part_001's `executeWebSearch(query, numResults)`: Serper request with
`num: numResults` and normalisation with `slice(0, numResults)` (the TS
default `numResults = 5` is supplied at the call site). -/
def executeWebSearch (w : World) (query : String) (numResults : Nat) :
    SearchResults :=
  normalizeSearch (w.serper query numResults) numResults

/-- Tool-result message pushed by part_001 lines 242-246; the call is
`executeWebSearch(args.query, args.numResults || 5)`. -/
def buildToolMsg (w : World) (tc : ToolCall) (a : SearchArgs) : Msg :=
  .tool tc.id (executeWebSearch w a.query (orDefault a.numResults 5))

/-- System prompt of part_001 (abbreviated). -/
def systemPrompt : Msg :=
  .system "You are a helpful AI assistant with web search capabilities. Limit yourself to 1-2 web searches maximum per question."

/-- Hard-coded user question of part_001. -/
def question : String :=
  "What are the latest human trial results from Neuralink? - do a web search for me"

/-- part_001's `testGMIStreaming()`. -/
def testGMIStreaming (w : World) (script : Nat → Reply) : LoopOut Gmi.GmiResult :=
  Gmi.run (buildToolMsg w) w script
    ⟨[systemPrompt, .user question], 0, 0⟩ Gmi.maxIterations

end Gmi1

/-! ## Cerebras agent loop (layout.tsx lines 119-339) -/

namespace Cerebras

/-- layout.tsx `executeWebSearch(query, numResults)` (the TS default
`numResults = 10` is supplied at the call site). -/
def executeWebSearch (w : World) (query : String) (numResults : Nat) :
    SearchResults :=
  normalizeSearch (w.serper query numResults) numResults

/-- Tool-result message pushed by lines 296-300; the search call is
`executeWebSearch(args.query, args.numResults || 10)`. -/
def toolResultMsg (w : World) (tc : ToolCall) (a : SearchArgs) : Msg :=
  .tool tc.id (executeWebSearch w a.query (orDefault a.numResults 10))

/-- Corrective system turn injected before the request when tools are no
longer offered and this is not the first iteration (lines 211-216; text
abbreviated, the interpolated count kept). -/
def forceFinalMsg (maxToolCalls : Nat) : Msg :=
  .system ("You have completed " ++ toString maxToolCalls ++ " searches and gathered sufficient information. You MUST now provide a comprehensive final answer to the users question using ONLY the search results you have already received.")

/-- Corrective system turn pushed when a turn requests tools although the
budget is already spent (lines 253-257; abbreviated). -/
def maxReachedMsg (maxToolCalls : Nat) : Msg :=
  .system ("You have reached the maximum number of searches allowed (" ++ toString maxToolCalls ++ "). You MUST provide a final answer now using the information you have gathered.")

/-- System prompt of the Cerebras controller (lines 133-183, abbreviated). -/
def systemPrompt : Msg :=
  .system "CRITICAL INSTRUCTIONS - You have ONLY 4 iterations maximum. By iteration 3, you MUST provide a final response."

/-- Loop-carried state: `conversationMessages`, `iteration`,
`toolCallsCount`.  Token-usage accumulation and source collection
(`totalUsage`, `allSources`, `searchQueries`) are external bookkeeping with
no control-flow effect and are not modelled. -/
structure LoopState where
  messages : List Msg
  iteration : Nat
  toolCallsCount : Nat
  deriving DecidableEq, Repr

/-- Result of the Cerebras loop that the claims observe: `content` and
`toolCalls` of the returned `CerebrasWebSearchResult`. -/
structure CerebrasResult where
  content : String
  toolCalls : Nat
  deriving DecidableEq, Repr

/-- Tool-execution loop of lines 264-302: only invocations named
`webSearch` are considered; before each one the budget is re-checked and
the whole `for` loop `break`s once `toolCallsCount >= maxToolCalls`; an
executed invocation first increments the counter, then parses its
arguments (unguarded `JSON.parse` - a failure escapes the function), then
pushes one tool-result message. -/
def execToolCalls (w : World) (maxToolCalls : Nat) (count : Nat)
    (msgs : List Msg) : List ToolCall → Nat × List Msg × Option LoopErr
  | [] => (count, msgs, none)
  | tc :: rest =>
    if tc.function.name = "webSearch" then
      if maxToolCalls ≤ count then (count, msgs, none)
      else
        match w.parseArgs tc.function.arguments with
        | none => (count + 1, msgs, some .jsonParse)
        | some a =>
          execToolCalls w maxToolCalls (count + 1)
            (msgs ++ [toolResultMsg w tc a]) rest
    else execToolCalls w maxToolCalls count msgs rest

/-- Fueled Cerebras agent loop (lines 203-338).  Each pass: compute
`shouldOfferTools = toolCallsCount < maxToolCalls`; inject the corrective
system turn when not offering and past the first iteration; send the
request (recorded in the trace); append the assistant reply; then branch on
tool calls / content exactly as the source does. -/
def run (w : World) (script : Nat → Reply) (maxToolCalls : Nat) :
    LoopState → Nat → LoopOut CerebrasResult
  | st, 0 => ⟨[], st.messages, .error .reachedMaxIterations⟩
  | st, fuel + 1 =>
    let iteration := st.iteration + 1
    let msgs := if ¬ st.toolCallsCount < maxToolCalls ∧ 1 < iteration then
        st.messages ++ [forceFinalMsg maxToolCalls]
      else st.messages
    let req : Req := ⟨st.toolCallsCount, decide (st.toolCallsCount < maxToolCalls),
      msgs⟩
    let reply := script st.iteration
    let msgs2 := msgs ++ [Msg.assistant reply.content reply.tool_calls]
    if reply.tool_calls ≠ [] then
      if maxToolCalls ≤ st.toolCallsCount then
        prependReq req (run w script maxToolCalls
          ⟨msgs2 ++ [maxReachedMsg maxToolCalls], iteration, st.toolCallsCount⟩ fuel)
      else
        match execToolCalls w maxToolCalls st.toolCallsCount msgs2 reply.tool_calls with
        | (_, m, some e) => ⟨[req], m, .error e⟩
        | (c, m, none) =>
          prependReq req (run w script maxToolCalls ⟨m, iteration, c⟩ fuel)
    else if reply.content ≠ "" then
      ⟨[req], msgs2, .ok ⟨reply.content, st.toolCallsCount⟩⟩
    else ⟨[req], msgs2, .error .emptyResponse⟩

/-- Recognised configuration options of the public entry point.
`temperature` and `maxTokens` are passed through to the provider request
and have no control-flow effect. -/
structure Options where
  temperature : Option Nat
  maxTokens : Option Nat
  maxIterations : Option Nat
  maxToolCalls : Option Nat
  deriving DecidableEq, Repr

/-- The effective iteration cap: `options?.maxIterations || 4`. -/
def Options.maxIter (o : Options) : Nat := orDefault o.maxIterations 4

/-- The effective tool-call cap: `options?.maxToolCalls || 2`. -/
def Options.maxTC (o : Options) : Nat := orDefault o.maxToolCalls 2

/-- layout.tsx `chatWithCerebrasWebSearch(messages, options)`: prepend the
system prompt to the caller-supplied messages, then run the loop with the
configured (or default) caps. -/
def chatWithCerebrasWebSearch (w : World) (script : Nat → Reply)
    (messages : List Msg) (opts : Options) : LoopOut CerebrasResult :=
  run w script opts.maxTC ⟨systemPrompt :: messages, 0, 0⟩ opts.maxIter

end Cerebras

/-! ## Concrete inputs used by counterexamples and witnesses -/

/-- Fragment sequence for the C6 counterexample: the id for index 0 becomes
the non-empty "call_a", then a later fragment carries a different id. -/
def c6fragments : List ToolCallDelta :=
  [⟨0, some "call_a", some ⟨some "webSearch", some "q1"⟩⟩,
   ⟨0, some "call_b", some ⟨none, some "q2"⟩⟩]

/-- Shorthand for a `webSearch` invocation with a given id and raw
argument string. -/
def wsCall (id args : String) : ToolCall :=
  ⟨id, ⟨"webSearch", args⟩⟩

/-- A world whose argument parser always succeeds (query "q", no
`numResults`) and whose search endpoint returns an empty result list. -/
def cexWorld : World :=
  ⟨fun _ => some ⟨"q", none⟩, fun _ _ => ⟨none, none⟩⟩

/-- A world whose argument parser always fails (models arguments that are
not valid JSON). -/
def badParseWorld : World :=
  ⟨fun _ => none, fun _ _ => ⟨none, none⟩⟩

/-- A world whose parser yields `numResults = 50` and whose search endpoint
returns 12 organic results. -/
def big12World : World :=
  ⟨fun _ => some ⟨"q", some 50⟩,
   fun _ _ => ⟨some (List.replicate 12 ⟨"t", "s", "l"⟩), none⟩⟩

/-- Provider script: the first turn requests four `webSearch` invocations,
every later turn answers with content only. -/
def script4calls : Nat → Reply := fun i =>
  if i = 0 then
    ⟨"", [wsCall "id1" "a1", wsCall "id2" "a2", wsCall "id3" "a3", wsCall "id4" "a4"]⟩
  else ⟨"done", []⟩

/-- Provider script: the first turn requests three `webSearch` invocations,
every later turn answers with content only. -/
def script3calls : Nat → Reply := fun i =>
  if i = 0 then
    ⟨"", [wsCall "id1" "a1", wsCall "id2" "a2", wsCall "id3" "a3"]⟩
  else ⟨"Answer from search results", []⟩

/-- Provider script: the first turn requests one `webSearch` invocation,
every later turn answers with content only. -/
def script1call : Nat → Reply := fun i =>
  if i = 0 then ⟨"", [wsCall "id1" "not json"]⟩ else ⟨"done", []⟩

/-- A tool invocation whose function name is not `webSearch`. -/
def badNameCall : ToolCall :=
  ⟨"idX", ⟨"otherTool", "arg"⟩⟩

/-- Provider script: the first turn requests one invocation of an unknown
tool, every later turn answers with content only. -/
def scriptBadName : Nat → Reply := fun i =>
  if i = 0 then ⟨"", [badNameCall]⟩ else ⟨"done", []⟩

/-- Default (empty) options for the Cerebras entry point:
`maxIterations` falls back to 4 and `maxToolCalls` to 2. -/
def copts : Cerebras.Options :=
  ⟨none, none, none, none⟩

/-- A world whose parser fails exactly on the argument string "bad" and
succeeds on every other string. -/
def mixedParseWorld : World :=
  ⟨fun s => if s = "bad" then none else some ⟨"q", none⟩,
   fun _ _ => ⟨none, none⟩⟩

/-- Provider script: the first turn requests two `webSearch` invocations,
the second of which carries the unparsable argument string "bad". -/
def scriptSecondBad : Nat → Reply := fun i =>
  if i = 0 then ⟨"", [wsCall "id1" "a1", wsCall "id2" "bad"]⟩
  else ⟨"done", []⟩

/-! ## Specification-side accumulation functions (for claim C2)

These definitions follow the spec's wording (section 4.2 / section 8,
first testable property) and are compared against the source-derived
accumulator: the invocation at an index should carry the concatenation, in
arrival order, of all name/argument increments for that index. -/

/-- Fragments addressed to one positional index, in arrival order. -/
def fragmentsFor (ds : List ToolCallDelta) (i : Nat) : List ToolCallDelta :=
  ds.filter (fun d => d.index == i)

/-- Stated from the spec's words: the concatenation, in arrival order, of
all name increments for an index. -/
def specNameConcat (ds : List ToolCallDelta) (i : Nat) : String :=
  (fragmentsFor ds i).foldl (fun acc d => acc ++ d.nameInc) ""

/-- Stated from the spec's words: the concatenation, in arrival order, of
all argument increments for an index. -/
def specArgsConcat (ds : List ToolCallDelta) (i : Nat) : String :=
  (fragmentsFor ds i).foldl (fun acc d => acc ++ d.argsInc) ""

/-- The id the source keeps for an index: the last truthy id increment
(claims C2/C6 are settled against this source-derived behaviour). -/
def lastIdFor (ds : List ToolCallDelta) (i : Nat) : String :=
  (fragmentsFor ds i).foldl (fun acc d =>
    match d.id with
    | some s => if s = "" then acc else s
    | none => acc) ""

/-! ### Array-cell lemmas -/

theorem getAt_setAt_self :
    ∀ (l : List (Option ToolCall)) (i : Nat) (v), getAt (setAt l i v) i = v := by
  intro l
  induction l with
  | nil =>
    intro i
    induction i with
    | zero => intro v; rfl
    | succ n ih => intro v; simpa [setAt, getAt] using ih v
  | cons x xs ih =>
    intro i v
    cases i with
    | zero => rfl
    | succ n => simpa [setAt, getAt] using ih n v

theorem getAt_setAt_ne :
    ∀ (l : List (Option ToolCall)) (i j : Nat) (v), j ≠ i →
      getAt (setAt l i v) j = getAt l j := by
  intro l
  induction l with
  | nil =>
    intro i
    induction i with
    | zero =>
      intro j v hj
      cases j with
      | zero => exact absurd rfl hj
      | succ m => rfl
    | succ n ih =>
      intro j v hj
      cases j with
      | zero => rfl
      | succ m =>
        simp only [setAt, getAt]
        have := ih m v (fun h => hj (by simpa using h))
        simpa [getAt] using this
  | cons x xs ih =>
    intro i j v hj
    cases i with
    | zero =>
      cases j with
      | zero => exact absurd rfl hj
      | succ m => rfl
    | succ n =>
      cases j with
      | zero => rfl
      | succ m =>
        simp only [setAt, getAt]
        exact ih n m v (fun h => hj (by simpa using h))

theorem getAt_applyToolCallDelta_self (calls : List (Option ToolCall))
    (d : ToolCallDelta) :
    getAt (applyToolCallDelta calls d) d.index =
      some ⟨(match d.id with
             | some s => if s = "" then ((getAt calls d.index).getD ⟨"", ⟨"", ""⟩⟩).id
                         else s
             | none => ((getAt calls d.index).getD ⟨"", ⟨"", ""⟩⟩).id),
            ⟨((getAt calls d.index).getD ⟨"", ⟨"", ""⟩⟩).function.name ++ d.nameInc,
             ((getAt calls d.index).getD ⟨"", ⟨"", ""⟩⟩).function.arguments ++ d.argsInc⟩⟩ := by
  unfold applyToolCallDelta
  rw [getAt_setAt_self]
  refine congrArg some ?_
  simp only [ToolCall.mk.injEq, ToolCallFn.mk.injEq]
  refine ⟨trivial, ?_, ?_⟩
  · split
    next h => simp [h]
    next => rfl
  · split
    next h => simp [h]
    next => rfl

theorem getAt_applyToolCallDelta_ne (calls : List (Option ToolCall))
    (d : ToolCallDelta) (j : Nat) (h : j ≠ d.index) :
    getAt (applyToolCallDelta calls d) j = getAt calls j := by
  unfold applyToolCallDelta
  exact getAt_setAt_ne _ _ _ _ h

theorem specNameConcat_append (ds : List ToolCallDelta) (d : ToolCallDelta)
    (i : Nat) :
    specNameConcat (ds ++ [d]) i =
      if d.index == i then specNameConcat ds i ++ d.nameInc
      else specNameConcat ds i := by
  cases h : d.index == i <;>
    simp [specNameConcat, fragmentsFor, List.filter_append, h, List.foldl_append]

theorem specArgsConcat_append (ds : List ToolCallDelta) (d : ToolCallDelta)
    (i : Nat) :
    specArgsConcat (ds ++ [d]) i =
      if d.index == i then specArgsConcat ds i ++ d.argsInc
      else specArgsConcat ds i := by
  cases h : d.index == i <;>
    simp [specArgsConcat, fragmentsFor, List.filter_append, h, List.foldl_append]

theorem lastIdFor_append (ds : List ToolCallDelta) (d : ToolCallDelta) (i : Nat) :
    lastIdFor (ds ++ [d]) i =
      if d.index == i then
        (match d.id with
         | some s => if s = "" then lastIdFor ds i else s
         | none => lastIdFor ds i)
      else lastIdFor ds i := by
  cases h : d.index == i <;>
    simp [lastIdFor, fragmentsFor, List.filter_append, h, List.foldl_append]

theorem specNameConcat_of_not_any (ds : List ToolCallDelta) (i : Nat)
    (h : ds.any (fun d => d.index == i) = false) : specNameConcat ds i = "" := by
  simp only [List.any_eq_false] at h
  simp [specNameConcat, fragmentsFor, List.filter_eq_nil_iff.mpr h]

theorem specArgsConcat_of_not_any (ds : List ToolCallDelta) (i : Nat)
    (h : ds.any (fun d => d.index == i) = false) : specArgsConcat ds i = "" := by
  simp only [List.any_eq_false] at h
  simp [specArgsConcat, fragmentsFor, List.filter_eq_nil_iff.mpr h]

theorem lastIdFor_of_not_any (ds : List ToolCallDelta) (i : Nat)
    (h : ds.any (fun d => d.index == i) = false) : lastIdFor ds i = "" := by
  simp only [List.any_eq_false] at h
  simp [lastIdFor, fragmentsFor, List.filter_eq_nil_iff.mpr h]

/-- C2: for every finite fragment sequence of one assistant turn, the delta
accumulator holds exactly one in-progress invocation per addressed
positional index (and none for an unaddressed index); its name is the
concatenation, in arrival order, of all name increments for that index,
and its argument string is the concatenation, in arrival order, of all
argument increments for that index. -/
theorem c2_accumulator_concatenates (ds : List ToolCallDelta) (i : Nat) :
    getAt (accumToolCalls ds) i =
      if ds.any (fun d => d.index == i) then
        some ⟨lastIdFor ds i, ⟨specNameConcat ds i, specArgsConcat ds i⟩⟩
      else none := by
  induction ds using List.reverseRecOn with
  | nil =>
    simp [accumToolCalls, getAt, specNameConcat, specArgsConcat, lastIdFor,
      fragmentsFor]
  | append_singleton ds d ih =>
    have hacc : accumToolCalls (ds ++ [d]) = applyToolCallDelta (accumToolCalls ds) d := by
      simp [accumToolCalls, List.foldl_append]
    rw [hacc]
    by_cases hij : i = d.index
    · subst hij
      have hidx : (d.index == d.index) = true := by simp
      rw [getAt_applyToolCallDelta_self, ih, specNameConcat_append,
        specArgsConcat_append, lastIdFor_append, hidx]
      cases hany : ds.any (fun d' => d'.index == d.index) with
      | true => simp [hany]
      | false =>
        simp [hany, specNameConcat_of_not_any ds d.index hany,
          specArgsConcat_of_not_any ds d.index hany,
          lastIdFor_of_not_any ds d.index hany]
    · have hidx : (d.index == i) = false := by
        simp [Ne.symm hij]
      rw [getAt_applyToolCallDelta_ne _ _ _ hij, ih, specNameConcat_append,
        specArgsConcat_append, lastIdFor_append, hidx]
      simp [hidx]

/-- C8: the stream frame decoder skips an individual malformed event and
continues decoding - inserting one malformed line anywhere in the line
sequence leaves the accumulated turn exactly as if the line had not been
there, so a single corrupt event never fails the turn and every well-formed
event after it is still decoded. -/
theorem c8_decoder_skips_malformed (st : AccState) (xs ys : List RawLine) :
    processLines st (xs ++ RawLine.malformed :: ys) = processLines st (xs ++ ys) := by
  simp [processLines, List.foldl_append, List.foldl_cons, processLine]

/-- C6 (counterexample): after the id of the index-0 invocation has become
the non-empty "call_a", a later fragment carrying the different id "call_b"
is NOT treated as a protocol error - the accumulator (which is total and
has no error outcome at all) silently overwrites, and the finalized
invocation carries "call_b". -/
theorem c6_counterexample :
    getAt (accumToolCalls c6fragments) 0 =
      some ⟨"call_b", ⟨"webSearch", "q1q2"⟩⟩ ∧ "call_a" ≠ "call_b" :=
  ⟨rfl, by decide⟩

/-- C6 (amended): during delta accumulation, a fragment carrying a
non-empty id for an index always overwrites the stored id of that index -
even when the stored id is already non-empty - and no protocol error is
raised (only an empty id increment leaves the stored id in place). -/
theorem c6_amended_id_silently_overwritten (calls : List (Option ToolCall))
    (d : ToolCallDelta) (s : String) (hid : d.id = some s) (hs : s ≠ "") :
    (getAt (applyToolCallDelta calls d) d.index).map ToolCall.id = some s := by
  rw [getAt_applyToolCallDelta_self]
  simp [hid, hs]

/-- Witness for the amended C6 theorem at a concrete input: a stored
non-empty id "call_a" is overwritten by the later id "call_b". -/
theorem c6_amended_witness :
    (getAt (applyToolCallDelta [some ⟨"call_a", ⟨"webSearch", "x"⟩⟩]
        ⟨0, some "call_b", none⟩) 0).map ToolCall.id = some "call_b" :=
  c6_amended_id_silently_overwritten [some ⟨"call_a", ⟨"webSearch", "x"⟩⟩]
    ⟨0, some "call_b", none⟩ "call_b" rfl (by decide)

/-! ## Invariant lemmas for the Cerebras loop -/

theorem cerebras_exec_count_le (w : World) (maxTC : Nat) :
    ∀ (tcs : List ToolCall) (count : Nat) (msgs : List Msg),
      count ≤ (Cerebras.execToolCalls w maxTC count msgs tcs).1 := by
  intro tcs
  induction tcs with
  | nil => intro count msgs; simp [Cerebras.execToolCalls]
  | cons tc rest ih =>
    intro count msgs
    simp only [Cerebras.execToolCalls]
    split
    · split
      · simp
      · cases hp : w.parseArgs tc.function.arguments with
        | none => simp [hp]
        | some a =>
          simp only [hp]
          exact le_trans (Nat.le_succ count) (ih (count + 1) _)
    · exact ih count msgs

theorem cerebras_exec_count_ub (w : World) (maxTC : Nat) :
    ∀ (tcs : List ToolCall) (count : Nat) (msgs : List Msg), count ≤ maxTC →
      (Cerebras.execToolCalls w maxTC count msgs tcs).1 ≤ maxTC := by
  intro tcs
  induction tcs with
  | nil => intro count msgs h; simpa [Cerebras.execToolCalls] using h
  | cons tc rest ih =>
    intro count msgs h
    simp only [Cerebras.execToolCalls]
    split
    · split
      next hle => simpa using h
      next hlt =>
        have hcount : count + 1 ≤ maxTC := Nat.succ_le_of_lt (Nat.lt_of_not_le hlt)
        cases hp : w.parseArgs tc.function.arguments with
        | none => simpa [hp] using hcount
        | some a =>
          simp only [hp]
          exact ih (count + 1) _ hcount
    · exact ih count msgs h

theorem cerebras_exec_count_le_of_eq (w : World) (maxTC : Nat)
    (tcs : List ToolCall) (count : Nat) (msgs : List Msg) (c : Nat)
    (m : List Msg) (e : Option LoopErr)
    (heq : Cerebras.execToolCalls w maxTC count msgs tcs = (c, m, e)) :
    count ≤ c := by
  have h0 := cerebras_exec_count_le w maxTC tcs count msgs
  rw [heq] at h0
  exact h0

theorem cerebras_exec_count_ub_of_eq (w : World) (maxTC : Nat)
    (tcs : List ToolCall) (count : Nat) (msgs : List Msg) (c : Nat)
    (m : List Msg) (e : Option LoopErr) (h : count ≤ maxTC)
    (heq : Cerebras.execToolCalls w maxTC count msgs tcs = (c, m, e)) :
    c ≤ maxTC := by
  have h0 := cerebras_exec_count_ub w maxTC tcs count msgs h
  rw [heq] at h0
  exact h0

theorem cerebras_run_trace_count_le (w : World) (script : Nat → Reply)
    (maxTC : Nat) :
    ∀ (fuel : Nat) (st : Cerebras.LoopState),
      ∀ r ∈ (Cerebras.run w script maxTC st fuel).trace,
        st.toolCallsCount ≤ r.toolCalls := by
  intro fuel
  induction fuel with
  | zero => intro st r hr; simp [Cerebras.run] at hr
  | succ n ih =>
    intro st r hr
    simp only [Cerebras.run] at hr
    split at hr
    · split at hr
      · simp only [prependReq, List.mem_cons] at hr
        rcases hr with rfl | hr
        · exact le_refl _
        · have h2 := ih _ r hr
          exact h2
      · split at hr
        · simp only [List.mem_singleton] at hr
          subst hr
          exact le_refl _
        next c m heq =>
          simp only [prependReq, List.mem_cons] at hr
          rcases hr with rfl | hr
          · exact le_refl _
          · have h1 := cerebras_exec_count_le_of_eq w maxTC _ _ _ _ _ _ heq
            have h2 := ih _ r hr
            exact le_trans h1 h2
    · split at hr <;>
      · simp only [List.mem_singleton] at hr
        subst hr
        exact le_refl _

theorem cerebras_run_trace_pairwise (w : World) (script : Nat → Reply)
    (maxTC : Nat) :
    ∀ (fuel : Nat) (st : Cerebras.LoopState),
      List.Pairwise (fun a b => a.toolCalls ≤ b.toolCalls)
        (Cerebras.run w script maxTC st fuel).trace := by
  intro fuel
  induction fuel with
  | zero => intro st; simp [Cerebras.run]
  | succ n ih =>
    intro st
    simp only [Cerebras.run]
    split
    · split
      · simp only [prependReq]
        refine List.Pairwise.cons ?_ (ih _)
        intro r hr
        have h2 := cerebras_run_trace_count_le w script maxTC n _ r hr
        exact h2
      · split
        · simp
        next c m heq =>
          simp only [prependReq]
          refine List.Pairwise.cons ?_ (ih _)
          intro r hr
          have h1 := cerebras_exec_count_le_of_eq w maxTC _ _ _ _ _ _ heq
          have h2 := cerebras_run_trace_count_le w script maxTC n _ r hr
          exact le_trans h1 h2
    · split <;> simp

theorem cerebras_run_trace_offered (w : World) (script : Nat → Reply)
    (maxTC : Nat) :
    ∀ (fuel : Nat) (st : Cerebras.LoopState),
      ∀ r ∈ (Cerebras.run w script maxTC st fuel).trace,
        r.offered = decide (r.toolCalls < maxTC) := by
  intro fuel
  induction fuel with
  | zero => intro st r hr; simp [Cerebras.run] at hr
  | succ n ih =>
    intro st r hr
    simp only [Cerebras.run] at hr
    split at hr
    · split at hr
      · simp only [prependReq, List.mem_cons] at hr
        rcases hr with rfl | hr
        · rfl
        · exact ih _ r hr
      · split at hr
        · simp only [List.mem_singleton] at hr
          subst hr; rfl
        next c m heq =>
          simp only [prependReq, List.mem_cons] at hr
          rcases hr with rfl | hr
          · rfl
          · exact ih _ r hr
    · split at hr <;>
      · simp only [List.mem_singleton] at hr
        subst hr; rfl

theorem cerebras_run_trace_length (w : World) (script : Nat → Reply)
    (maxTC : Nat) :
    ∀ (fuel : Nat) (st : Cerebras.LoopState),
      (Cerebras.run w script maxTC st fuel).trace.length ≤ fuel := by
  intro fuel
  induction fuel with
  | zero => intro st; simp [Cerebras.run]
  | succ n ih =>
    intro st
    simp only [Cerebras.run]
    split
    · split
      · simpa [prependReq] using Nat.succ_le_succ (ih _)
      · split
        · simp
        next c m heq => simpa [prependReq] using Nat.succ_le_succ (ih _)
    · split <;> simp

theorem cerebras_run_trace_count_ub (w : World) (script : Nat → Reply)
    (maxTC : Nat) :
    ∀ (fuel : Nat) (st : Cerebras.LoopState),
      ∀ r ∈ (Cerebras.run w script maxTC st fuel).trace,
        st.toolCallsCount ≤ maxTC → r.toolCalls ≤ maxTC := by
  intro fuel
  induction fuel with
  | zero => intro st r hr; simp [Cerebras.run] at hr
  | succ n ih =>
    intro st r hr hst
    simp only [Cerebras.run] at hr
    split at hr
    · split at hr
      · simp only [prependReq, List.mem_cons] at hr
        rcases hr with rfl | hr
        · exact hst
        · have h2 := ih _ r hr
          exact h2 hst
      · split at hr
        · simp only [List.mem_singleton] at hr
          subst hr; exact hst
        next c m heq =>
          simp only [prependReq, List.mem_cons] at hr
          rcases hr with rfl | hr
          · exact hst
          · have hc := cerebras_exec_count_ub_of_eq w maxTC _ _ _ _ _ _ hst heq
            have h2 := ih _ r hr
            exact h2 hc
    · split at hr <;>
      · simp only [List.mem_singleton] at hr
        subst hr; exact hst

/-! ## Invariant lemmas for the GMI loops -/

theorem gmi_run_trace_count_le (build : ToolCall → SearchArgs → Msg) (w : World)
    (script : Nat → Reply) :
    ∀ (fuel : Nat) (st : Gmi.LoopState),
      ∀ r ∈ (Gmi.run build w script st fuel).trace,
        st.toolCallCount ≤ r.toolCalls := by
  intro fuel
  induction fuel with
  | zero => intro st r hr; simp [Gmi.run] at hr
  | succ n ih =>
    intro st r hr
    simp only [Gmi.run] at hr
    split at hr
    · split at hr
      · simp only [List.mem_singleton] at hr
        subst hr; exact le_refl _
      · simp only [prependReq, List.mem_cons] at hr
        rcases hr with rfl | hr
        · exact le_refl _
        · have h2 := ih _ r hr
          exact le_trans (Nat.le_add_right _ _) h2
    · split at hr <;>
      · simp only [List.mem_singleton] at hr
        subst hr; exact le_refl _

theorem gmi_run_trace_pairwise (build : ToolCall → SearchArgs → Msg) (w : World)
    (script : Nat → Reply) :
    ∀ (fuel : Nat) (st : Gmi.LoopState),
      List.Pairwise (fun a b => a.toolCalls ≤ b.toolCalls)
        (Gmi.run build w script st fuel).trace := by
  intro fuel
  induction fuel with
  | zero => intro st; simp [Gmi.run]
  | succ n ih =>
    intro st
    simp only [Gmi.run]
    split
    · split
      · simp
      · simp only [prependReq]
        refine List.Pairwise.cons ?_ (ih _)
        intro r hr
        have h2 := gmi_run_trace_count_le build w script n _ r hr
        exact le_trans (Nat.le_add_right _ _) h2
    · split <;> simp

theorem gmi_run_trace_offered (build : ToolCall → SearchArgs → Msg) (w : World)
    (script : Nat → Reply) :
    ∀ (fuel : Nat) (st : Gmi.LoopState),
      ∀ r ∈ (Gmi.run build w script st fuel).trace,
        r.offered = decide (r.toolCalls < Gmi.maxToolCalls) := by
  intro fuel
  induction fuel with
  | zero => intro st r hr; simp [Gmi.run] at hr
  | succ n ih =>
    intro st r hr
    simp only [Gmi.run] at hr
    split at hr
    · split at hr
      · simp only [List.mem_singleton] at hr
        subst hr; rfl
      · simp only [prependReq, List.mem_cons] at hr
        rcases hr with rfl | hr
        · rfl
        · exact ih _ r hr
    · split at hr <;>
      · simp only [List.mem_singleton] at hr
        subst hr; rfl

theorem gmi_run_trace_length (build : ToolCall → SearchArgs → Msg) (w : World)
    (script : Nat → Reply) :
    ∀ (fuel : Nat) (st : Gmi.LoopState),
      (Gmi.run build w script st fuel).trace.length ≤ fuel := by
  intro fuel
  induction fuel with
  | zero => intro st; simp [Gmi.run]
  | succ n ih =>
    intro st
    simp only [Gmi.run]
    split
    · split
      · simp
      · simpa [prependReq] using Nat.succ_le_succ (ih _)
    · split <;> simp

/-! ## Temporal helper: once the counter has reached the cap, no later
request in a trace offers tools -/

theorem trace_no_offer_after (tr : List Req) (maxTC : Nat)
    (hpw : List.Pairwise (fun a b => a.toolCalls ≤ b.toolCalls) tr)
    (hoff : ∀ r ∈ tr, r.offered = decide (r.toolCalls < maxTC))
    (i j : Nat) (hij : i ≤ j)
    (hi : (tr.get? i).map Req.toolCalls = some maxTC) :
    ((tr.get? j).map Req.offered).getD false = false := by
  rcases Option.map_eq_some'.mp hi with ⟨ri, hri, hmax⟩
  cases hj : tr.get? j with
  | none => simp
  | some rj =>
    have hmem : rj ∈ tr := List.get?_mem hj
    have hoffj := hoff rj hmem
    have hle : ri.toolCalls ≤ rj.toolCalls := by
      rcases Nat.eq_or_lt_of_le hij with rfl | hlt
      · rw [hri] at hj
        cases hj
        exact le_refl _
      · rcases List.get?_eq_some.mp hri with ⟨hilen, hig⟩
        rcases List.get?_eq_some.mp hj with ⟨hjlen, hjg⟩
        have := List.pairwise_iff_get.mp hpw ⟨i, hilen⟩ ⟨j, hjlen⟩ hlt
        rw [hig, hjg] at this
        exact this
    have hnot : ¬ rj.toolCalls < maxTC := by
      rw [← hmax]
      exact Nat.not_lt.mpr hle
    simp [hoffj, hnot]

/-! ## Claim C1 -/

/-- C1 (counterexample): in the GMI streaming loop of part_000 the claim
fails - when the first assistant turn requests four invocations while
`maxToolCalls = 3`, the counter jumps to 4, so the second provider request
is made at `toolCallsUsed = 4 > maxToolCalls`.  The claimed invariant
`toolCallsUsed <= maxToolCalls` does not hold at every point. -/
theorem c1_counterexample :
    ((Gmi0.chatWithWebSearchStreaming cexWorld script4calls "What is new?").trace.map
      (fun r => (r.toolCalls, r.offered))) = [(0, true), (4, false)] ∧
    Gmi.maxToolCalls < 4 :=
  ⟨rfl, by decide⟩

/-- C1 (amended): in every execution of all three loop variants the
tool-call counter observed at the provider requests is non-decreasing and
the number of iterations never exceeds `maxIterations`; in the Cerebras
controller the counter additionally never exceeds `maxToolCalls`.  (In the
two GMI variants the counter can exceed `maxToolCalls`, because a turn
increments it by the full number of requested invocations - see the
counterexample.) -/
theorem c1_amended_budget_invariants (w : World) (script : Nat → Reply) :
    (∀ (msgs : List Msg) (opts : Cerebras.Options),
      List.Pairwise (fun a b => a.toolCalls ≤ b.toolCalls)
        (Cerebras.chatWithCerebrasWebSearch w script msgs opts).trace ∧
      (∀ r ∈ (Cerebras.chatWithCerebrasWebSearch w script msgs opts).trace,
        r.toolCalls ≤ opts.maxTC) ∧
      (Cerebras.chatWithCerebrasWebSearch w script msgs opts).trace.length ≤
        opts.maxIter) ∧
    (∀ question : String,
      List.Pairwise (fun a b => a.toolCalls ≤ b.toolCalls)
        (Gmi0.chatWithWebSearchStreaming w script question).trace ∧
      (Gmi0.chatWithWebSearchStreaming w script question).trace.length ≤
        Gmi.maxIterations) ∧
    (List.Pairwise (fun a b => a.toolCalls ≤ b.toolCalls)
        (Gmi1.testGMIStreaming w script).trace ∧
      (Gmi1.testGMIStreaming w script).trace.length ≤ Gmi.maxIterations) := by
  refine ⟨fun msgs opts => ⟨?_, ?_, ?_⟩, fun question => ⟨?_, ?_⟩, ?_, ?_⟩
  · exact cerebras_run_trace_pairwise w script opts.maxTC opts.maxIter _
  · intro r hr
    exact cerebras_run_trace_count_ub w script opts.maxTC opts.maxIter _ r hr
      (Nat.zero_le _)
  · exact cerebras_run_trace_length w script opts.maxTC opts.maxIter _
  · exact gmi_run_trace_pairwise (Gmi0.buildToolMsg w) w script Gmi.maxIterations _
  · exact gmi_run_trace_length (Gmi0.buildToolMsg w) w script Gmi.maxIterations _
  · exact gmi_run_trace_pairwise (Gmi1.buildToolMsg w) w script Gmi.maxIterations _
  · exact gmi_run_trace_length (Gmi1.buildToolMsg w) w script Gmi.maxIterations _

/-- Witness for the amended C1 theorem: at a concrete run the first
recorded request carries a counter within the Cerebras cap. -/
theorem c1_amended_witness :
    (⟨0, true, [Cerebras.systemPrompt, Msg.user "u"]⟩ : Req).toolCalls ≤
      copts.maxTC :=
  ((c1_amended_budget_invariants cexWorld script3calls).1 [Msg.user "u"] copts).2.1
    ⟨0, true, [Cerebras.systemPrompt, Msg.user "u"]⟩ (by decide)

/-! ## Claim C3 -/

/-- C3: in the Cerebras controller and in the GMI streaming loop, once a
provider request is made with `toolCallsUsed = maxToolCalls`, no later
provider request offers the tool schema. -/
theorem c3_no_tools_after_limit :
    (∀ (w : World) (script : Nat → Reply) (msgs : List Msg)
       (opts : Cerebras.Options) (i j : Nat), i ≤ j →
      (((Cerebras.chatWithCerebrasWebSearch w script msgs opts).trace.get? i).map
        Req.toolCalls = some opts.maxTC) →
      ((((Cerebras.chatWithCerebrasWebSearch w script msgs opts).trace.get? j).map
        Req.offered).getD false = false)) ∧
    (∀ (w : World) (script : Nat → Reply) (question : String) (i j : Nat), i ≤ j →
      (((Gmi0.chatWithWebSearchStreaming w script question).trace.get? i).map
        Req.toolCalls = some Gmi.maxToolCalls) →
      ((((Gmi0.chatWithWebSearchStreaming w script question).trace.get? j).map
        Req.offered).getD false = false)) := by
  constructor
  · intro w script msgs opts i j hij hi
    exact trace_no_offer_after _ opts.maxTC
      (cerebras_run_trace_pairwise w script opts.maxTC opts.maxIter _)
      (cerebras_run_trace_offered w script opts.maxTC opts.maxIter _)
      i j hij hi
  · intro w script question i j hij hi
    exact trace_no_offer_after _ Gmi.maxToolCalls
      (gmi_run_trace_pairwise (Gmi0.buildToolMsg w) w script Gmi.maxIterations _)
      (gmi_run_trace_offered (Gmi0.buildToolMsg w) w script Gmi.maxIterations _)
      i j hij hi

/-- Witness for C3 at a concrete run: the Cerebras controller reaches
`toolCallsUsed = maxToolCalls = 2` at its second request, and that request
(and thus every later one) does not offer tools. -/
theorem c3_witness :
    (((Cerebras.chatWithCerebrasWebSearch cexWorld script3calls [Msg.user "u"]
        copts).trace.get? 1).map Req.offered).getD false = false :=
  c3_no_tools_after_limit.1 cexWorld script3calls [Msg.user "u"] copts 1 1
    (le_refl 1) (by decide)

/-! ## Claim C4 -/

/-- C4 (counterexample): in the GMI streaming loop of part_000 the claim
fails - a first turn requesting four invocations against the remaining
budget of 3 executes all four in full (each gets a tool-result turn), with
no early stop. -/
theorem c4_counterexample :
    ((Gmi0.chatWithWebSearchStreaming cexWorld script4calls "q4").messages.filter
      Msg.isToolResult).map Msg.toolCallId =
      [some "id1", some "id2", some "id3", some "id4"] ∧
    Gmi.maxToolCalls = 3 :=
  ⟨rfl, rfl⟩

/-- C4 (amended): in the Cerebras controller the claim holds exactly as
stated: when a turn requests more invocations than the remaining budget,
invocations execute in order with an early stop - exactly
`maxToolCalls - toolCallsUsed` of them execute, each incrementing the
counter by one and appending exactly one tool-result turn with its
invocation id, the unexecuted tail gets no tool-result turn, and the loop
proceeds to the next iteration with a corrective system turn.  (The GMI
streaming variant instead executes every requested invocation with no
early stop - see the counterexample.) -/
theorem c4_amended_budgeted_execution :
    (∀ (w : World) (maxTC count : Nat) (msgs : List Msg) (tcs : List ToolCall),
      (∀ tc ∈ tcs, tc.function.name = "webSearch") →
      (∀ tc ∈ tcs, (w.parseArgs tc.function.arguments).isSome) →
      count ≤ maxTC →
      Cerebras.execToolCalls w maxTC count msgs tcs =
        (min (count + tcs.length) maxTC,
         msgs ++ (tcs.take (maxTC - count)).map
           (fun tc => Cerebras.toolResultMsg w tc
             ((w.parseArgs tc.function.arguments).getD ⟨"", none⟩)),
         none)) ∧
    ((Cerebras.chatWithCerebrasWebSearch cexWorld script3calls [Msg.user "u"]
        copts).result = .ok ⟨"Answer from search results", 2⟩ ∧
     ((Cerebras.chatWithCerebrasWebSearch cexWorld script3calls [Msg.user "u"]
        copts).messages.filter Msg.isToolResult).map Msg.toolCallId =
       [some "id1", some "id2"] ∧
     (Cerebras.chatWithCerebrasWebSearch cexWorld script3calls [Msg.user "u"]
        copts).trace.map (fun r => (r.toolCalls, r.offered)) =
       [(0, true), (2, false)] ∧
     ((Cerebras.chatWithCerebrasWebSearch cexWorld script3calls [Msg.user "u"]
        copts).trace.get? 1).map (fun r => r.sent.getLast?) =
       some (some (Cerebras.forceFinalMsg 2))) := by
  refine ⟨?_, rfl, rfl, rfl, rfl⟩
  intro w maxTC count msgs tcs
  induction tcs generalizing count msgs with
  | nil =>
    intro _ _ hle
    simp [Cerebras.execToolCalls, Nat.min_eq_left hle]
  | cons tc rest ih =>
    intro hnames hparse hle
    have hname := hnames tc (by simp)
    simp only [Cerebras.execToolCalls, hname, if_true, if_pos rfl]
    by_cases hcnt : maxTC ≤ count
    · rw [if_pos hcnt]
      have hzero : maxTC - count = 0 := Nat.sub_eq_zero_of_le hcnt
      have hmin : min (count + (tc :: rest).length) maxTC = count := by
        have : count = maxTC := le_antisymm hle hcnt
        subst this
        simp [Nat.min_eq_right, Nat.le_add_right]
      rw [hmin, hzero]
      simp
    · rw [if_neg hcnt]
      have hlt : count < maxTC := Nat.lt_of_not_le hcnt
      have hps := hparse tc (by simp)
      rcases Option.isSome_iff_exists.mp hps with ⟨a, ha⟩
      rw [ha]
      simp only []
      rw [ih (count + 1) (msgs ++ [Cerebras.toolResultMsg w tc a])
        (fun x hx => hnames x (by simp [hx]))
        (fun x hx => hparse x (by simp [hx]))
        (Nat.succ_le_of_lt hlt)]
      have hsub : maxTC - count = (maxTC - (count + 1)) + 1 := by omega
      have hmin2 : min (count + 1 + rest.length) maxTC =
          min (count + (tc :: rest).length) maxTC := by
        simp only [List.length_cons]
        omega
      rw [hsub, hmin2, List.take_succ_cons]
      simp [ha]

/-- Witness for the amended C4 theorem: three requested invocations against
a budget of 2 execute exactly twice, in order. -/
theorem c4_amended_witness :
    Cerebras.execToolCalls cexWorld 2 0 []
        [wsCall "id1" "a1", wsCall "id2" "a2", wsCall "id3" "a3"] =
      (min (0 + 3) 2,
       [] ++ ([wsCall "id1" "a1", wsCall "id2" "a2", wsCall "id3" "a3"].take (2 - 0)).map
         (fun tc => Cerebras.toolResultMsg cexWorld tc
           ((cexWorld.parseArgs tc.function.arguments).getD ⟨"", none⟩)),
       none) :=
  c4_amended_budgeted_execution.1 cexWorld 2 0 []
    [wsCall "id1" "a1", wsCall "id2" "a2", wsCall "id3" "a3"]
    (by decide) (by decide) (by decide)

/-! ## Claim C5 -/

/-- C5 (counterexample): an invocation whose raw argument string does not
parse is NOT confined to that invocation - no tool-result error payload is
appended for it and the loop does not continue; instead the unguarded
`JSON.parse` exception aborts the whole Cerebras loop after the very first
iteration. -/
theorem c5_counterexample :
    Cerebras.chatWithCerebrasWebSearch badParseWorld script1call [Msg.user "u"]
        copts =
      ⟨[⟨0, true, [Cerebras.systemPrompt, Msg.user "u"]⟩],
       [Cerebras.systemPrompt, Msg.user "u",
        Msg.assistant "" [wsCall "id1" "not json"]],
       .error .jsonParse⟩ ∧
    (Cerebras.chatWithCerebrasWebSearch badParseWorld script1call [Msg.user "u"]
        copts).messages.filter Msg.isToolResult = [] ∧
    (Cerebras.chatWithCerebrasWebSearch badParseWorld script1call [Msg.user "u"]
        copts).trace.length = 1 :=
  ⟨rfl, rfl, rfl⟩

theorem orDefault_pos (o : Option Nat) (d : Nat) (hd : 0 < d) :
    0 < orDefault o d := by
  cases o with
  | none => exact hd
  | some k =>
    by_cases hk : k = 0
    · simpa [orDefault, hk] using hd
    · simpa [orDefault, hk] using Nat.pos_of_ne_zero hk

theorem cerebras_exec_parse_abort (w : World) (maxTC : Nat) :
    ∀ (pre : List ToolCall) (count : Nat) (msgs : List Msg) (tc : ToolCall)
      (rest : List ToolCall),
      (∀ x ∈ pre, x.function.name = "webSearch" →
        (w.parseArgs x.function.arguments).isSome = true) →
      count + pre.countP (fun x => x.function.name == "webSearch") < maxTC →
      tc.function.name = "webSearch" →
      w.parseArgs tc.function.arguments = none →
      (Cerebras.execToolCalls w maxTC count msgs (pre ++ tc :: rest)).2.2 =
        some .jsonParse := by
  intro pre
  induction pre with
  | nil =>
    intro count msgs tc rest _ hbud hname hparse
    have hc : count < maxTC := by simpa using hbud
    simp only [List.nil_append, Cerebras.execToolCalls, hname, if_pos rfl]
    rw [if_neg (Nat.not_le.mpr hc)]
    simp [hparse]
  | cons x pre ih =>
    intro count msgs tc rest hpre hbud hname hparse
    by_cases hx : x.function.name = "webSearch"
    · have hcnt : (x :: pre).countP (fun y => y.function.name == "webSearch") =
          pre.countP (fun y => y.function.name == "webSearch") + 1 := by
        simp [List.countP_cons, hx]
      have hc : count < maxTC := by omega
      have hxparse := hpre x (by simp) hx
      rcases Option.isSome_iff_exists.mp hxparse with ⟨a, ha⟩
      simp only [List.cons_append, Cerebras.execToolCalls, hx, if_pos rfl]
      rw [if_neg (Nat.not_le.mpr hc), ha]
      exact ih (count + 1) _ tc rest (fun y hy => hpre y (by simp [hy]))
        (by omega) hname hparse
    · have hcnt : (x :: pre).countP (fun y => y.function.name == "webSearch") =
          pre.countP (fun y => y.function.name == "webSearch") := by
        simp [List.countP_cons, hx]
      simp only [List.cons_append, Cerebras.execToolCalls, if_neg hx]
      exact ih count msgs tc rest (fun y hy => hpre y (by simp [hy]))
        (by omega) hname hparse

theorem gmi_exec_parse_abort (build : ToolCall → SearchArgs → Msg) (w : World) :
    ∀ (pre : List ToolCall) (msgs : List Msg) (tc : ToolCall)
      (rest : List ToolCall),
      (∀ x ∈ pre, x.function.name = "webSearch" →
        (w.parseArgs x.function.arguments).isSome = true) →
      tc.function.name = "webSearch" →
      w.parseArgs tc.function.arguments = none →
      (Gmi.execToolCalls build w msgs (pre ++ tc :: rest)).2 =
        some .jsonParse := by
  intro pre
  induction pre with
  | nil =>
    intro msgs tc rest _ hname hparse
    simp [Gmi.execToolCalls, hname, hparse]
  | cons x pre ih =>
    intro msgs tc rest hpre hname hparse
    by_cases hx : x.function.name = "webSearch"
    · have hxparse := hpre x (by simp) hx
      rcases Option.isSome_iff_exists.mp hxparse with ⟨a, ha⟩
      simp only [List.cons_append, Gmi.execToolCalls, hx, if_pos rfl, ha]
      exact ih _ tc rest (fun y hy => hpre y (by simp [hy])) hname hparse
    · simp only [List.cons_append, Gmi.execToolCalls, if_neg hx]
      exact ih msgs tc rest (fun y hy => hpre y (by simp [hy])) hname hparse

theorem cerebras_run_parse_abort (w : World) (script : Nat → Reply)
    (maxTC : Nat) (st : Cerebras.LoopState) (fuel : Nat) (pre : List ToolCall)
    (tc : ToolCall) (rest : List ToolCall)
    (hcalls : (script st.iteration).tool_calls = pre ++ tc :: rest)
    (hpre : ∀ x ∈ pre, x.function.name = "webSearch" →
      (w.parseArgs x.function.arguments).isSome = true)
    (hbud : st.toolCallsCount +
      pre.countP (fun x => x.function.name == "webSearch") < maxTC)
    (hname : tc.function.name = "webSearch")
    (hparse : w.parseArgs tc.function.arguments = none) :
    (Cerebras.run w script maxTC st (fuel + 1)).result = .error .jsonParse ∧
    (Cerebras.run w script maxTC st (fuel + 1)).trace.length = 1 := by
  have hcount : st.toolCallsCount < maxTC := by omega
  have h1 : ¬ (¬ st.toolCallsCount < maxTC ∧ 1 < st.iteration + 1) :=
    fun h => h.1 hcount
  have h2 : ¬ maxTC ≤ st.toolCallsCount := Nat.not_le.mpr hcount
  have hne : pre ++ tc :: rest ≠ [] := by simp
  rcases hexec : Cerebras.execToolCalls w maxTC st.toolCallsCount
      (st.messages ++
        [Msg.assistant (script st.iteration).content (pre ++ tc :: rest)])
      (pre ++ tc :: rest) with ⟨c, m, e⟩
  have he : e = some .jsonParse := by
    have h3 := cerebras_exec_parse_abort w maxTC pre st.toolCallsCount
      (st.messages ++
        [Msg.assistant (script st.iteration).content (pre ++ tc :: rest)])
      tc rest hpre hbud hname hparse
    rw [hexec] at h3
    exact h3
  subst he
  have hrun : Cerebras.run w script maxTC st (fuel + 1) =
      ⟨[⟨st.toolCallsCount, decide (st.toolCallsCount < maxTC), st.messages⟩],
       m, .error .jsonParse⟩ := by
    simp only [Cerebras.run, hcalls, if_neg h1, if_neg h2]
    rw [if_pos hne, hexec]
  rw [hrun]
  exact ⟨rfl, rfl⟩

theorem gmi_run_parse_abort (build : ToolCall → SearchArgs → Msg) (w : World)
    (script : Nat → Reply) (st : Gmi.LoopState) (fuel : Nat)
    (pre : List ToolCall) (tc : ToolCall) (rest : List ToolCall)
    (hcalls : (script st.iteration).tool_calls = pre ++ tc :: rest)
    (hpre : ∀ x ∈ pre, x.function.name = "webSearch" →
      (w.parseArgs x.function.arguments).isSome = true)
    (hname : tc.function.name = "webSearch")
    (hparse : w.parseArgs tc.function.arguments = none) :
    (Gmi.run build w script st (fuel + 1)).result = .error .jsonParse ∧
    (Gmi.run build w script st (fuel + 1)).trace.length = 1 := by
  have hne : pre ++ tc :: rest ≠ [] := by simp
  rcases hexec : Gmi.execToolCalls build w
      (st.messages ++
        [Msg.assistant (script st.iteration).content (pre ++ tc :: rest)])
      (pre ++ tc :: rest) with ⟨m, e⟩
  have he : e = some .jsonParse := by
    have h3 := gmi_exec_parse_abort build w pre
      (st.messages ++
        [Msg.assistant (script st.iteration).content (pre ++ tc :: rest)])
      tc rest hpre hname hparse
    rw [hexec] at h3
    exact h3
  subst he
  have hrun : Gmi.run build w script st (fuel + 1) =
      ⟨[⟨st.toolCallCount, decide (st.toolCallCount < Gmi.maxToolCalls),
          st.messages⟩],
       m, .error .jsonParse⟩ := by
    simp only [Gmi.run, hcalls]
    rw [if_pos hne, hexec]
  rw [hrun]
  exact ⟨rfl, rfl⟩

/-- C5 (amended): a tool invocation whose raw argument string the parser
rejects is NOT confined to that invocation: as soon as the execution loop
reaches it - at any position in the turn, after any earlier invocations
have executed - the unguarded `JSON.parse` exception aborts the whole loop
with the parse error and no further provider request happens; no
tool-result error payload is appended for the failing invocation.  This
holds for the Cerebras controller (any invocation still within the budget),
for the shared GMI loop body under any tool-result builder, and at the
entry points of all three cited variants. -/
theorem c5_amended_parse_failure_aborts :
    (∀ (w : World) (script : Nat → Reply) (maxTC : Nat)
       (st : Cerebras.LoopState) (fuel : Nat) (pre : List ToolCall)
       (tc : ToolCall) (rest : List ToolCall),
      (script st.iteration).tool_calls = pre ++ tc :: rest →
      (∀ x ∈ pre, x.function.name = "webSearch" →
        (w.parseArgs x.function.arguments).isSome = true) →
      st.toolCallsCount +
        pre.countP (fun x => x.function.name == "webSearch") < maxTC →
      tc.function.name = "webSearch" →
      w.parseArgs tc.function.arguments = none →
      (Cerebras.run w script maxTC st (fuel + 1)).result = .error .jsonParse ∧
      (Cerebras.run w script maxTC st (fuel + 1)).trace.length = 1) ∧
    (∀ (build : ToolCall → SearchArgs → Msg) (w : World) (script : Nat → Reply)
       (st : Gmi.LoopState) (fuel : Nat) (pre : List ToolCall) (tc : ToolCall)
       (rest : List ToolCall),
      (script st.iteration).tool_calls = pre ++ tc :: rest →
      (∀ x ∈ pre, x.function.name = "webSearch" →
        (w.parseArgs x.function.arguments).isSome = true) →
      tc.function.name = "webSearch" →
      w.parseArgs tc.function.arguments = none →
      (Gmi.run build w script st (fuel + 1)).result = .error .jsonParse ∧
      (Gmi.run build w script st (fuel + 1)).trace.length = 1) ∧
    (∀ (w : World) (script : Nat → Reply) (msgs : List Msg)
       (opts : Cerebras.Options) (pre : List ToolCall) (tc : ToolCall)
       (rest : List ToolCall),
      (script 0).tool_calls = pre ++ tc :: rest →
      (∀ x ∈ pre, x.function.name = "webSearch" →
        (w.parseArgs x.function.arguments).isSome = true) →
      pre.countP (fun x => x.function.name == "webSearch") < opts.maxTC →
      tc.function.name = "webSearch" →
      w.parseArgs tc.function.arguments = none →
      (Cerebras.chatWithCerebrasWebSearch w script msgs opts).result =
        .error .jsonParse) ∧
    (∀ (w : World) (script : Nat → Reply) (question : String)
       (pre : List ToolCall) (tc : ToolCall) (rest : List ToolCall),
      (script 0).tool_calls = pre ++ tc :: rest →
      (∀ x ∈ pre, x.function.name = "webSearch" →
        (w.parseArgs x.function.arguments).isSome = true) →
      tc.function.name = "webSearch" →
      w.parseArgs tc.function.arguments = none →
      (Gmi0.chatWithWebSearchStreaming w script question).result =
        .error .jsonParse) ∧
    (∀ (w : World) (script : Nat → Reply) (pre : List ToolCall) (tc : ToolCall)
       (rest : List ToolCall),
      (script 0).tool_calls = pre ++ tc :: rest →
      (∀ x ∈ pre, x.function.name = "webSearch" →
        (w.parseArgs x.function.arguments).isSome = true) →
      tc.function.name = "webSearch" →
      w.parseArgs tc.function.arguments = none →
      (Gmi1.testGMIStreaming w script).result = .error .jsonParse) := by
  refine ⟨fun w script maxTC st fuel pre tc rest hcalls hpre hbud hname hparse =>
      cerebras_run_parse_abort w script maxTC st fuel pre tc rest hcalls hpre
        hbud hname hparse,
    fun build w script st fuel pre tc rest hcalls hpre hname hparse =>
      gmi_run_parse_abort build w script st fuel pre tc rest hcalls hpre hname
        hparse,
    ?_, ?_, ?_⟩
  · intro w script msgs opts pre tc rest hcalls hpre hbud hname hparse
    have hpos : 0 < opts.maxIter := orDefault_pos _ 4 (by omega)
    obtain ⟨n, hn⟩ : ∃ n, opts.maxIter = n + 1 := ⟨opts.maxIter - 1, by omega⟩
    show (Cerebras.run w script opts.maxTC
      ⟨Cerebras.systemPrompt :: msgs, 0, 0⟩ opts.maxIter).result = _
    rw [hn]
    exact (cerebras_run_parse_abort w script opts.maxTC
      ⟨Cerebras.systemPrompt :: msgs, 0, 0⟩ n pre tc rest hcalls hpre
      (by simpa using hbud) hname hparse).1
  · intro w script question pre tc rest hcalls hpre hname hparse
    exact (gmi_run_parse_abort (Gmi0.buildToolMsg w) w script
      ⟨[Gmi0.systemPrompt, .user question], 0, 0⟩ 4 pre tc rest hcalls hpre
      hname hparse).1
  · intro w script pre tc rest hcalls hpre hname hparse
    exact (gmi_run_parse_abort (Gmi1.buildToolMsg w) w script
      ⟨[Gmi1.systemPrompt, .user Gmi1.question], 0, 0⟩ 4 pre tc rest hcalls
      hpre hname hparse).1

/-- Witness for the amended C5 theorem at a concrete input: a turn whose
second invocation carries the unparsable string "bad" (the first parses and
executes) aborts the Cerebras loop with the parse error after one request. -/
theorem c5_amended_witness :
    (Cerebras.run mixedParseWorld scriptSecondBad 3
      ⟨[Msg.user "x"], 0, 0⟩ 3).result = .error .jsonParse ∧
    (Cerebras.run mixedParseWorld scriptSecondBad 3
      ⟨[Msg.user "x"], 0, 0⟩ 3).trace.length = 1 :=
  c5_amended_parse_failure_aborts.1 mixedParseWorld scriptSecondBad 3
    ⟨[Msg.user "x"], 0, 0⟩ 2 [wsCall "id1" "a1"] (wsCall "id2" "bad") [] rfl
    (by decide) (by decide) rfl rfl

/-! ## Claim C7 -/

/-- C7: exhausting the iteration budget without having completed or failed
yields the budget-exhausted error, in the Cerebras and the GMI loops; and
in the concrete scenario `maxIterations = 1` with a first reply requesting
one tool call, the invocation is executed (its tool-result turn is in the
final transcript) and the overall result is the budget-exhausted error,
not a completion. -/
theorem c7_budget_exhausted :
    (∀ (w : World) (script : Nat → Reply) (maxTC : Nat)
      (st : Cerebras.LoopState),
      Cerebras.run w script maxTC st 0 =
        ⟨[], st.messages, .error .reachedMaxIterations⟩) ∧
    (∀ (build : ToolCall → SearchArgs → Msg) (w : World) (script : Nat → Reply)
      (st : Gmi.LoopState),
      Gmi.run build w script st 0 =
        ⟨[], st.messages, .error .reachedMaxIterations⟩) ∧
    (∀ (w : World) (script : Nat → Reply) (msgs : List Msg) (tc : ToolCall)
      (a : SearchArgs),
      (script 0).tool_calls = [tc] → tc.function.name = "webSearch" →
      w.parseArgs tc.function.arguments = some a →
      Cerebras.chatWithCerebrasWebSearch w script msgs ⟨none, none, some 1, none⟩ =
        ⟨[⟨0, true, Cerebras.systemPrompt :: msgs⟩],
         (Cerebras.systemPrompt :: msgs) ++
           [Msg.assistant (script 0).content [tc], Cerebras.toolResultMsg w tc a],
         .error .reachedMaxIterations⟩) := by
  refine ⟨fun w script maxTC st => rfl, fun build w script st => rfl, ?_⟩
  intro w script msgs tc a hcalls hname hparse
  show Cerebras.run w script 2 ⟨Cerebras.systemPrompt :: msgs, 0, 0⟩ 1 = _
  have h2 : ¬ (2:Nat) ≤ 0 := by decide
  simp only [Cerebras.run, hcalls]
  rw [if_neg (by simp : ¬ (¬ (0:Nat) < 2 ∧ 1 < (0:Nat) + 1))]
  rw [if_pos (List.cons_ne_nil tc [])]
  simp only [if_neg h2, Cerebras.execToolCalls, hname, if_pos rfl, hparse]
  simp [prependReq, Cerebras.run, List.append_assoc]

/-- Witness for C7 at a concrete input: one executed invocation, then the
budget-exhausted error. -/
theorem c7_witness :
    Cerebras.chatWithCerebrasWebSearch cexWorld script1call [Msg.user "u2"]
        ⟨none, none, some 1, none⟩ =
      ⟨[⟨0, true, [Cerebras.systemPrompt, Msg.user "u2"]⟩],
       [Cerebras.systemPrompt, Msg.user "u2",
        Msg.assistant "" [wsCall "id1" "not json"],
        Cerebras.toolResultMsg cexWorld (wsCall "id1" "not json") ⟨"q", none⟩],
       .error .reachedMaxIterations⟩ :=
  c7_budget_exhausted.2.2 cexWorld script1call [Msg.user "u2"]
    (wsCall "id1" "not json") ⟨"q", none⟩ rfl rfl rfl

/-! ## Claim C10 -/

/-- C10: in the Cerebras controller, an assistant invocation whose function
name is not webSearch is never executed: it leaves the tool-call counter
unchanged, gets no tool-result turn, and the loop still advances to the
next iteration with the invocation left unanswered. -/
theorem c10_non_websearch_skipped :
    (∀ (w : World) (maxTC count : Nat) (msgs : List Msg) (tc : ToolCall)
      (rest : List ToolCall), tc.function.name ≠ "webSearch" →
      Cerebras.execToolCalls w maxTC count msgs (tc :: rest) =
        Cerebras.execToolCalls w maxTC count msgs rest) ∧
    (∀ (w : World) (script : Nat → Reply) (maxTC : Nat)
      (st : Cerebras.LoopState) (fuel : Nat) (tc : ToolCall),
      (script st.iteration).tool_calls = [tc] → tc.function.name ≠ "webSearch" →
      st.toolCallsCount < maxTC →
      Cerebras.run w script maxTC st (fuel + 1) =
        prependReq ⟨st.toolCallsCount, true, st.messages⟩
          (Cerebras.run w script maxTC
            ⟨st.messages ++ [Msg.assistant (script st.iteration).content [tc]],
             st.iteration + 1, st.toolCallsCount⟩ fuel)) := by
  constructor
  · intro w maxTC count msgs tc rest hname
    simp [Cerebras.execToolCalls, hname]
  · intro w script maxTC st fuel tc hcalls hname hcount
    have h1 : ¬ (¬ st.toolCallsCount < maxTC ∧ 1 < st.iteration + 1) :=
      fun h => h.1 hcount
    have h2 : ¬ maxTC ≤ st.toolCallsCount := Nat.not_le.mpr hcount
    simp only [Cerebras.run, hcalls, if_neg h1, if_neg h2]
    rw [if_pos (List.cons_ne_nil tc [])]
    simp only [Cerebras.execToolCalls, hname, if_neg hname]
    simp [hcount]

/-- Witness for C10 at a concrete input: a turn requesting only the unknown
tool `otherTool` leaves the counter at 0, appends no tool-result turn, and
the loop runs on. -/
theorem c10_witness :
    Cerebras.run cexWorld scriptBadName 2 ⟨[Msg.user "u3"], 0, 0⟩ 4 =
      prependReq ⟨0, true, [Msg.user "u3"]⟩
        (Cerebras.run cexWorld scriptBadName 2
          ⟨[Msg.user "u3", Msg.assistant "" [badNameCall]], 1, 0⟩ 3) :=
  c10_non_websearch_skipped.2 cexWorld scriptBadName 2 ⟨[Msg.user "u3"], 0, 0⟩ 3
    badNameCall rfl (by decide) (by decide)

/-! ## Claim C9 -/

/-- C9 (counterexample): no clamping happens anywhere - a supplied
`numResults = 50` is used as-is, the effective value 50 lies outside the
configured inclusive range 2..10, and with an upstream response of 12
organic entries the normalised result keeps 12 entries, more than the
claimed maximum of 10. -/
theorem c9_counterexample :
    orDefault (some 50) 10 = 50 ∧
    ¬ (2 ≤ orDefault (some 50) 10 ∧ orDefault (some 50) 10 ≤ 10) ∧
    (Cerebras.executeWebSearch big12World "q"
      (orDefault (some 50) 10)).organic.length = 12 ∧
    10 < 12 :=
  ⟨rfl, by decide, rfl, by decide⟩

/-- C9 (amended): the effective `numResults` is the supplied value used
without clamping whenever it is non-zero (the 2..10 range appears only in
the tool schema text); an absent or zero value falls back to 10 in the
Cerebras path and to 5 in the GMI part_001 path (a top-of-range and a
near-mid default, not the mid-range value); the normalised result then
contains at most the effective number of entries. -/
theorem c9_amended_numresults :
    (∀ k : Nat, k ≠ 0 → orDefault (some k) 10 = k ∧ orDefault (some k) 5 = k) ∧
    orDefault none 10 = 10 ∧ orDefault none 5 = 5 ∧
    (∀ (w : World) (q : String) (n : Nat),
      (Cerebras.executeWebSearch w q n).organic.length ≤ n ∧
      (Gmi1.executeWebSearch w q n).organic.length ≤ n) ∧
    (∀ (w : World) (q : String), (Gmi0.executeWebSearch w q).organic.length ≤ 5) := by
  refine ⟨fun k hk => ⟨?_, ?_⟩, rfl, rfl, fun w q n => ⟨?_, ?_⟩, fun w q => ?_⟩
  · simp [orDefault, hk]
  · simp [orDefault, hk]
  · simp only [Cerebras.executeWebSearch, normalizeSearch, List.length_map,
      List.length_take]
    omega
  · simp only [Gmi1.executeWebSearch, normalizeSearch, List.length_map,
      List.length_take]
    omega
  · simp only [Gmi0.executeWebSearch, normalizeSearch, List.length_map,
      List.length_take]
    omega

/-- Witness for the amended C9 theorem: a supplied value of 7 passes
through unchanged in both variants. -/
theorem c9_amended_witness :
    orDefault (some 7) 10 = 7 ∧ orDefault (some 7) 5 = 7 :=
  c9_amended_numresults.1 7 (by decide)
